import Mathlib

/-!
Verification of the sampling / convergence-tracking core of the
pi-montecarlo-visualizer repository.

The repository contains the shared type declarations (`types.ts`), two
versions of the application component (both present in the source tree:
an *incremental* statistics version whose `updateStats` adds one per newly
landed ball, and a *recompute* version whose statistics effect refilters
the landed subset on every change), and a commentary service
(`services/geminiService.ts`).

Numbers: JavaScript numbers are modelled as exact rationals (`ℚ`) for the
animation/statistics arithmetic and as reals (`ℝ`) for the trigonometric
sampler geometry.  Counters that are only ever incremented from zero are
modelled as `ℕ`.  `Math.PI` is modelled as the exact value of the IEEE-754
double closest to π.
-/

namespace PiMC

/-! ## Data model (types.ts) -/

/-- `status: 'falling' | 'landed'` of a ball. -/
inductive BallStatus : Type
  | falling
  | landed
deriving DecidableEq, Repr

/-- `interface Ball` from types.ts.  The coordinate fields are parametric in
`α` (instantiated with `ℝ` for the sampler geometry; the state machines never
inspect them). -/
structure Ball (α : Type) : Type where
  id : String
  x : α
  y : α
  targetX : α
  targetY : α
  progress : ℚ
  color : String
  inSquare : Bool
  status : BallStatus

/-- `interface SimulationStats` from types.ts. -/
structure SimulationStats : Type where
  totalInCircle : ℕ
  totalInSquare : ℕ
  estimatedPi : ℚ
  error : ℚ
deriving DecidableEq, Repr

/-- `interface HistoryPoint` from types.ts. -/
structure HistoryPoint : Type where
  index : ℕ
  value : ℚ
deriving DecidableEq, Repr

/-- The exact rational value of the IEEE-754 double `Math.PI`
(3.141592653589793115997963…). -/
def mathPI : ℚ := 884279719003555 / 281474976710656

/-- Initial statistics value `{ totalInCircle: 0, totalInSquare: 0,
estimatedPi: 0, error: 0 }` used by `useState` and by `resetSimulation`. -/
def initialStats : SimulationStats :=
  { totalInCircle := 0, totalInSquare := 0, estimatedPi := 0, error := 0 }

variable {α : Type}

/-! ## Sampler (App.tsx `generateBall`, identical in both versions)

`generateBall` draws `u = Math.random()` and `theta`, sets
`r = radius * Math.sqrt(u)`, lands at
`(centerX + r cos θ, centerY + r sin θ)` and classifies membership in the
inscribed square of side `radius * Math.sqrt(2)` by an axis-aligned
bounding-box test.  The random draws and the fresh id are parameters. -/

open Classical in
noncomputable def generateBall (radius centerX centerY : ℝ) (u θ : ℝ)
    (id : String) : Ball ℝ :=
  let squareSize : ℝ := radius * Real.sqrt 2
  let r : ℝ := radius * Real.sqrt u
  let targetX : ℝ := centerX + r * Real.cos θ
  let targetY : ℝ := centerY + r * Real.sin θ
  let inSquare : Bool :=
    decide (targetX ≥ centerX - squareSize / 2 ∧ targetX ≤ centerX + squareSize / 2 ∧
            targetY ≥ centerY - squareSize / 2 ∧ targetY ≤ centerY + squareSize / 2)
  { id := id
    x := targetX
    y := -20            -- start above canvas
    targetX := targetX
    targetY := targetY
    progress := 0
    color := if inSquare then "#f472b6" else "#38bdf8"
    inSquare := inSquare
    status := .falling }

/-! ## Batch generator (`dropBalls`, identical in both versions)

`Array.from({ length: count }, generateBall)`: `ToLength` clamps a negative
`count` to `0`, so the new-ball list has `count.toNat` elements. -/

/-- The list of freshly generated balls appended by one drop action;
`gen` stands for the successive outcomes of `generateBall`. -/
def dropBalls (count : ℤ) (gen : ℕ → Ball α) : List (Ball α) :=
  (List.range count.toNat).map gen

/-- A ball as produced by `generateBall`: `status: 'falling', progress: 0`. -/
def fresh (b : Ball α) : Prop := b.status = .falling ∧ b.progress = 0

/-! ## Version A: incremental statistics (`updateStats` + interval loop) -/

/-- `updateStats` of the incremental version (App.tsx version A, called once
per newly landed ball): increments the counters, recomputes the estimate and
the relative error, and appends a history point every 10th ball. -/
def updateStats (landedBall : Ball α) (prev : SimulationStats)
    (hist : List HistoryPoint) : SimulationStats × List HistoryPoint :=
  let newTotal : ℕ := prev.totalInCircle + 1
  let newInSquare : ℕ := prev.totalInSquare + (if landedBall.inSquare then 1 else 0)
  -- Math: Area_circle / Area_square = (pi * R^2) / (2 * R^2) = pi / 2
  let estimatedPi : ℚ := if 0 < newInSquare then (2 * newTotal) / newInSquare else 0
  let error : ℚ := |mathPI - estimatedPi| / mathPI
  ({ totalInCircle := newTotal, totalInSquare := newInSquare,
     estimatedPi := estimatedPi, error := error },
   if newTotal % 10 = 0 then hist ++ [{ index := newTotal, value := estimatedPi }] else hist)

/-- One animation step for a single ball with progress increment `δ`
(0.05 in version A's interval, 0.08 in version B's animation frame):
a falling ball advances, clamping to 1 and landing when the next progress
would reach 1; a landed ball is untouched. -/
def tickBall (δ : ℚ) (b : Ball α) : Ball α :=
  if b.status = .falling then
    if 1 ≤ b.progress + δ then { b with progress := 1, status := .landed }
    else { b with progress := b.progress + δ }
  else b

/-- Version A's interval body mapped over the ball list: each newly landing
ball triggers `updateStats` (threading statistics and history left to
right, as the sequential functional state updates do). -/
def tickBallsA : List (Ball α) → SimulationStats → List HistoryPoint →
    List (Ball α) × SimulationStats × List HistoryPoint
  | [], s, h => ([], s, h)
  | b :: rest, s, h =>
    if b.status = .falling then
      if 1 ≤ b.progress + 1/20 then
        let sh := updateStats b s h
        let r := tickBallsA rest sh.1 sh.2
        ({ b with progress := 1, status := .landed } :: r.1, r.2)
      else
        let r := tickBallsA rest s (h : List HistoryPoint)
        ({ b with progress := b.progress + 1/20 } :: r.1, r.2)
    else
      let r := tickBallsA rest s h
      (b :: r.1, r.2)

/-- Full state of version A (`balls`, `stats`, `history`,
`isSimulationRunning`). -/
structure StateA (α : Type) : Type where
  balls : List (Ball α)
  stats : SimulationStats
  history : List HistoryPoint
  isSimulationRunning : Bool

/-- Version A initial state. -/
def initialStateA : StateA α :=
  { balls := [], stats := initialStats, history := [], isSimulationRunning := false }

/-- Version A drop action: append `count` fresh balls, set the running flag. -/
def dropBallsA (count : ℤ) (gen : ℕ → Ball α) (st : StateA α) : StateA α :=
  { st with balls := st.balls ++ dropBalls count gen, isSimulationRunning := true }

/-- Version A interval tick.  The effect installs no interval when the ball
list is empty; otherwise every falling ball advances by 0.05, newly landed
balls feed `updateStats`, and the running flag is cleared when no ball was
falling. -/
def tickA (st : StateA α) : StateA α :=
  if st.balls.isEmpty then st
  else
    let r := tickBallsA st.balls st.stats st.history
    let changed : Bool := st.balls.any (fun b => b.status = .falling)
    { balls := r.1
      stats := r.2.1
      history := r.2.2
      isSimulationRunning := if changed then st.isSimulationRunning else false }

/-- `resetSimulation` of version A: clear balls, statistics and history in
one action (the running flag is not touched by the source). -/
def resetA (st : StateA α) : StateA α :=
  { st with balls := [], stats := initialStats, history := [] }

/-- States of version A reachable from the initial state by drop actions
(whose generated balls are fresh, as `generateBall` guarantees), interval
ticks, and resets. -/
inductive ReachableA : StateA α → Prop
  | init : ReachableA initialStateA
  | drop (st : StateA α) (count : ℤ) (gen : ℕ → Ball α)
      (hgen : ∀ n, fresh (gen n)) :
      ReachableA st → ReachableA (dropBallsA count gen st)
  | tick (st : StateA α) : ReachableA st → ReachableA (tickA st)
  | reset (st : StateA α) : ReachableA st → ReachableA (resetA st)

/-! ## Version B: recompute statistics (statistics effect + rAF loop) -/

/-- Full state of version B. -/
structure StateB (α : Type) : Type where
  balls : List (Ball α)
  stats : SimulationStats
  history : List HistoryPoint

/-- `balls.filter(b => b.status === 'landed')`. -/
def landedBalls (balls : List (Ball α)) : List (Ball α) :=
  balls.filter (fun b => b.status = .landed)

/-- Number of landed balls. -/
def landedCount (balls : List (Ball α)) : ℕ := (landedBalls balls).length

/-- Number of landed balls with `inSquare`
(`landedBalls.filter(b => b.inSquare).length`). -/
def landedSqCount (balls : List (Ball α)) : ℕ :=
  ((landedBalls balls).filter (fun b => b.inSquare)).length

/-- The statistics recomputed by version B's effect from the landed subset. -/
def recomputeStats (landed : List (Ball α)) : SimulationStats :=
  let landedCount : ℕ := landed.length
  let inSquareCount : ℕ := (landed.filter (fun b => b.inSquare)).length
  let estimatedPi : ℚ := if 0 < inSquareCount then (2 * landedCount) / inSquareCount else 0
  let error : ℚ := |mathPI - estimatedPi| / mathPI
  { totalInCircle := landedCount, totalInSquare := inSquareCount,
    estimatedPi := estimatedPi, error := error }

/-- JavaScript `slice(-n)`: the last `n` elements. -/
def sliceLast (n : ℕ) (l : List β) : List β := l.drop (l.length - n)

/-- Version B history update: skip when the last point already has this
index, otherwise append and keep the last 100 points. -/
def pushHistoryB (landedCount : ℕ) (estimatedPi : ℚ)
    (h : List HistoryPoint) : List HistoryPoint :=
  if h.getLast?.map HistoryPoint.index = some landedCount then h
  else sliceLast 100 (h ++ [{ index := landedCount, value := estimatedPi }])

/-- Version B statistics effect: when the landed count grew, refilter the
landed subset, recompute all four statistics, and record a history point at
every 10th landed ball (or the first). -/
def statsEffectB (st : StateB α) : StateB α :=
  let lb := landedBalls st.balls
  let cnt := lb.length
  if st.stats.totalInCircle < cnt then
    let s := recomputeStats lb
    let newHistory := if cnt % 10 = 0 ∨ cnt = 1
                      then pushHistoryB cnt s.estimatedPi st.history
                      else st.history
    { st with stats := s, history := newHistory }
  else st

/-- Version B initial state. -/
def initialStateB : StateB α :=
  { balls := [], stats := initialStats, history := [] }

/-- Version B drop action. -/
def dropBallsB (count : ℤ) (gen : ℕ → Ball α) (st : StateB α) : StateB α :=
  { st with balls := st.balls ++ dropBalls count gen }

/-- Version B animation frame: advance every falling ball by 0.08. -/
def tickB (st : StateB α) : StateB α :=
  { st with balls := st.balls.map (tickBall (2/25)) }

/-- Version B `resetSimulation`. -/
def resetB (st : StateB α) : StateB α :=
  { st with balls := [], stats := initialStats, history := [] }

/-- States of version B reachable from the initial state; the statistics
effect re-runs after every state commit (its dependencies are the ball list
and the landed total), so it is applied after each action. -/
inductive ReachableB : StateB α → Prop
  | init : ReachableB initialStateB
  | drop (st : StateB α) (count : ℤ) (gen : ℕ → Ball α)
      (hgen : ∀ n, fresh (gen n)) :
      ReachableB st → ReachableB (statsEffectB (dropBallsB count gen st))
  | tick (st : StateB α) : ReachableB st → ReachableB (statsEffectB (tickB st))
  | reset (st : StateB α) : ReachableB st → ReachableB (statsEffectB (resetB st))

/-! ## Commentary service (services/geminiService.ts) -/

/-- The fixed fallback string returned by `getPiInsight` on a caught error. -/
def fallbackInsight : String :=
  "The laws of probability are currently contemplating your request. Try dropping more balls!"

/-- The statistics tuple passed to `getPiInsight`. -/
structure InsightStats : Type where
  total : ℕ
  square : ℕ
  estimate : ℚ
  error : ℚ

/-- The prompt built by `getPiInsight` (number formatting such as
`toFixed(6)` is abstracted by `toString`; the prompt content is opaque to
the control flow being verified). -/
def piInsightPrompt (stats : InsightStats) : String :=
  "I am running a Monte Carlo simulation to calculate Pi using a circle with an inscribed square. Total: "
    ++ toString stats.total ++ ", in square: " ++ toString stats.square
    ++ ", estimation: " ++ toString stats.estimate
    ++ ", error: " ++ toString stats.error
    ++ ". Provide a brief, witty, and educational mathematical insight about these results."

/-- The behaviour of the external SDK: the outcome of
`new GoogleGenAI({ apiKey: process.env.API_KEY })` (which may throw, e.g. on
an absent credential in a browser environment) and of
`ai.models.generateContent` followed by reading `response.text`.
`Except.error` models a thrown exception / rejected promise. -/
structure GeminiEnv : Type where
  newGoogleGenAI : Except String Unit
  generateContent : String → Except String String

/-- `getPiInsight`: the client is constructed *before* the try block
(`const ai = getAiClient()`), then the request runs inside
`try { ... return response.text } catch { ... return fallback }`. -/
def getPiInsight (env : GeminiEnv) (stats : InsightStats) : Except String String :=
  match env.newGoogleGenAI with
  | .error e => .error e
  | .ok _ =>
    match env.generateContent (piInsightPrompt stats) with
    | .ok text => .ok text
    | .error _ => .ok fallbackInsight

/-! ## Derived predicates and auxiliary definitions used by the theorems -/

/-- The per-ball animation invariant: progress stays in `[0, 1]` and a
landed ball has progress exactly 1. -/
def ballOK (b : Ball α) : Prop :=
  0 ≤ b.progress ∧ b.progress ≤ 1 ∧ (b.status = .landed → b.progress = 1)

/-- The history invariant relative to a landed total: indices strictly
increase along the series and never exceed the landed total. -/
def histOK (total : ℕ) (h : List HistoryPoint) : Prop :=
  (h.map HistoryPoint.index).Pairwise (· < ·) ∧ ∀ p ∈ h, p.index ≤ total

/-- Driving the incremental tracker (version A's `updateStats`) over a
sequence of landed-sample transitions, starting from the zero statistics.
The statistics component of `updateStats` does not read the history, so the
history argument is irrelevant here. -/
def foldStats (ls : List (Ball α)) : SimulationStats :=
  ls.foldl (fun s b => (updateStats b s []).1) initialStats

/-- Number of balls that land (falling, and the next progress reaches 1)
on one tick with increment `δ`. -/
def cntLands (δ : ℚ) : List (Ball α) → ℕ
  | [] => 0
  | b :: rest =>
    (if b.status = .falling ∧ 1 ≤ b.progress + δ then 1 else 0) + cntLands δ rest

/-- Number of in-square balls that land on one tick with increment `δ`. -/
def cntLandsSq (δ : ℚ) : List (Ball α) → ℕ
  | [] => 0
  | b :: rest =>
    (if (b.status = .falling ∧ 1 ≤ b.progress + δ) ∧ b.inSquare then 1 else 0) +
      cntLandsSq δ rest

/-- A concrete fresh in-square ball (landing coordinates are irrelevant to
the state machines, so the coordinate type is `Unit`). -/
def cbBall : Ball Unit :=
  { id := "", x := (), y := (), targetX := (), targetY := (), progress := 0,
    color := "#f472b6", inSquare := true, status := .falling }

/-- `cbBall` after `k` interval ticks of version A while still falling. -/
def ballAt (k : ℕ) : Ball Unit := { cbBall with progress := (k : ℚ) / 20 }

/-- A concrete version-A run: drop 1010 balls, then let the interval run for
the 20 ticks needed (at 0.05 per tick) for all of them to land. -/
def cbState : StateA Unit :=
  tickA^[20] (dropBallsA 1010 (fun _ => cbBall) initialStateA)

/-! ## Counting lemmas -/

lemma landedCount_cons (b : Ball α) (l : List (Ball α)) :
    landedCount (b :: l) = (if b.status = .landed then 1 else 0) + landedCount l := by
  by_cases hb : b.status = .landed <;>
    simp [landedCount, landedBalls, List.filter_cons, hb, Nat.add_comm]

lemma landedSqCount_cons (b : Ball α) (l : List (Ball α)) :
    landedSqCount (b :: l) =
      (if b.status = .landed ∧ b.inSquare then 1 else 0) + landedSqCount l := by
  by_cases hb : b.status = .landed <;> by_cases hs : b.inSquare <;>
    simp [landedSqCount, landedBalls, List.filter_cons, hb, hs, Nat.add_comm]

lemma landedCount_append (l₁ l₂ : List (Ball α)) :
    landedCount (l₁ ++ l₂) = landedCount l₁ + landedCount l₂ := by
  simp [landedCount, landedBalls, List.filter_append]

lemma landedSqCount_append (l₁ l₂ : List (Ball α)) :
    landedSqCount (l₁ ++ l₂) = landedSqCount l₁ + landedSqCount l₂ := by
  simp [landedSqCount, landedBalls, List.filter_append]

lemma landedSqCount_le (l : List (Ball α)) : landedSqCount l ≤ landedCount l :=
  List.length_filter_le _ _

lemma landedCount_of_fresh {l : List (Ball α)} (h : ∀ b ∈ l, fresh b) :
    landedCount l = 0 := by
  induction l with
  | nil => rfl
  | cons b rest ih =>
    rw [landedCount_cons, ih (fun x hx => h x (List.mem_cons_of_mem b hx))]
    have hb := (h b (List.mem_cons_self b rest)).1
    simp [hb]

lemma landedSqCount_of_fresh {l : List (Ball α)} (h : ∀ b ∈ l, fresh b) :
    landedSqCount l = 0 :=
  Nat.le_zero.mp (landedCount_of_fresh h ▸ landedSqCount_le l)

lemma dropBalls_fresh {gen : ℕ → Ball α} (hgen : ∀ n, fresh (gen n))
    (count : ℤ) : ∀ b ∈ dropBalls count gen, fresh b := by
  intro b hb
  obtain ⟨n, _, rfl⟩ := List.mem_map.mp hb
  exact hgen n

/-! ## Per-ball animation lemmas -/

lemma tickBall_landed {δ : ℚ} {b : Ball α} (hb : b.status = .landed) :
    tickBall δ b = b := by
  simp [tickBall, hb]

lemma tickBall_iterate_landed {δ : ℚ} {b : Ball α} (hb : b.status = .landed) :
    ∀ m : ℕ, (tickBall δ)^[m] b = b := by
  intro m
  induction m with
  | zero => rfl
  | succ m ih => rw [Function.iterate_succ_apply', ih, tickBall_landed hb]

lemma ballOK_tickBall {δ : ℚ} (hδ : 0 ≤ δ) {b : Ball α} (hb : ballOK b) :
    ballOK (tickBall δ b) := by
  obtain ⟨h0, h1, hl⟩ := hb
  cases hs : b.status with
  | landed => rw [tickBall_landed hs]; exact ⟨h0, h1, hl⟩
  | falling =>
    by_cases hp : 1 ≤ b.progress + δ
    · simp [tickBall, hs, hp, ballOK]
    · have he : tickBall δ b = { b with progress := b.progress + δ } := by
        simp [tickBall, hs, hp]
      rw [he]
      refine ⟨add_nonneg h0 hδ, le_of_lt (not_le.mp hp), ?_⟩
      intro h
      simp [hs] at h

lemma ballOK_of_fresh {b : Ball α} (hb : fresh b) : ballOK b := by
  obtain ⟨hs, hp⟩ := hb
  refine ⟨by rw [hp], by rw [hp]; norm_num, ?_⟩
  intro hl
  rw [hs] at hl
  simp at hl

/-! ## Sampler geometry lemmas -/

lemma within_iff (x c s : ℝ) : (x ≥ c - s ∧ x ≤ c + s) ↔ |x - c| ≤ s := by
  rw [abs_sub_le_iff]
  constructor <;> rintro ⟨h1, h2⟩ <;> constructor <;> linarith

lemma generateBall_inSquare_iff (radius cX cY u θ : ℝ) (id : String) :
    (generateBall radius cX cY u θ id).inSquare = true ↔
      |(generateBall radius cX cY u θ id).targetX - cX| ≤ radius * Real.sqrt 2 / 2 ∧
      |(generateBall radius cX cY u θ id).targetY - cY| ≤ radius * Real.sqrt 2 / 2 := by
  rw [show (generateBall radius cX cY u θ id).inSquare =
        decide ((generateBall radius cX cY u θ id).targetX ≥ cX - radius * Real.sqrt 2 / 2 ∧
          (generateBall radius cX cY u θ id).targetX ≤ cX + radius * Real.sqrt 2 / 2 ∧
          (generateBall radius cX cY u θ id).targetY ≥ cY - radius * Real.sqrt 2 / 2 ∧
          (generateBall radius cX cY u θ id).targetY ≤ cY + radius * Real.sqrt 2 / 2) from rfl,
     decide_eq_true_iff]
  constructor
  · rintro ⟨h1, h2, h3, h4⟩
    exact ⟨(within_iff _ _ _).mp ⟨h1, h2⟩, (within_iff _ _ _).mp ⟨h3, h4⟩⟩
  · rintro ⟨hx, hy⟩
    obtain ⟨h1, h2⟩ := (within_iff _ _ _).mpr hx
    obtain ⟨h3, h4⟩ := (within_iff _ _ _).mpr hy
    exact ⟨h1, h2, h3, h4⟩

lemma generateBall_fresh (radius cX cY u θ : ℝ) (id : String) :
    fresh (generateBall radius cX cY u θ id) :=
  ⟨rfl, rfl⟩

/-! ## Tick lemmas -/

lemma tickBall_eq_land {δ : ℚ} {b : Ball α} (hs : b.status = .falling)
    (hp : 1 ≤ b.progress + δ) :
    tickBall δ b = { b with progress := 1, status := .landed } := by
  simp only [tickBall]
  rw [if_pos hs, if_pos hp]

lemma tickBall_eq_fall {δ : ℚ} {b : Ball α} (hs : b.status = .falling)
    (hp : ¬ 1 ≤ b.progress + δ) :
    tickBall δ b = { b with progress := b.progress + δ } := by
  simp only [tickBall]
  rw [if_pos hs, if_neg hp]

lemma tickBall_eq_keep {δ : ℚ} {b : Ball α} (hs : b.status = .landed) :
    tickBall δ b = b := by
  simp only [tickBall]
  rw [if_neg (by rw [hs]; exact fun h => BallStatus.noConfusion h)]

lemma tickBallsA_cons_land {b : Ball α} (rest : List (Ball α))
    (s : SimulationStats) (h : List HistoryPoint)
    (hs : b.status = .falling) (hp : 1 ≤ b.progress + 1/20) :
    tickBallsA (b :: rest) s h =
      ({ b with progress := 1, status := .landed } ::
          (tickBallsA rest (updateStats b s h).1 (updateStats b s h).2).1,
        (tickBallsA rest (updateStats b s h).1 (updateStats b s h).2).2) := by
  simp only [tickBallsA]
  rw [if_pos hs, if_pos hp]

lemma tickBallsA_cons_fall {b : Ball α} (rest : List (Ball α))
    (s : SimulationStats) (h : List HistoryPoint)
    (hs : b.status = .falling) (hp : ¬ 1 ≤ b.progress + 1/20) :
    tickBallsA (b :: rest) s h =
      ({ b with progress := b.progress + 1/20 } :: (tickBallsA rest s h).1,
        (tickBallsA rest s h).2) := by
  simp only [tickBallsA]
  rw [if_pos hs, if_neg hp]

lemma tickBallsA_cons_keep {b : Ball α} (rest : List (Ball α))
    (s : SimulationStats) (h : List HistoryPoint) (hs : b.status = .landed) :
    tickBallsA (b :: rest) s h =
      (b :: (tickBallsA rest s h).1, (tickBallsA rest s h).2) := by
  simp only [tickBallsA]
  rw [if_neg (by rw [hs]; exact fun h => BallStatus.noConfusion h)]

lemma tickBallsA_balls (balls : List (Ball α)) :
    ∀ (s : SimulationStats) (h : List HistoryPoint),
      (tickBallsA balls s h).1 = balls.map (tickBall (1/20)) := by
  induction balls with
  | nil => intro s h; rfl
  | cons b rest ih =>
    intro s h
    cases hs : b.status with
    | falling =>
      by_cases hp : 1 ≤ b.progress + (1/20 : ℚ)
      · rw [tickBallsA_cons_land rest s h hs hp, List.map_cons,
          tickBall_eq_land hs hp, ih]
      · rw [tickBallsA_cons_fall rest s h hs hp, List.map_cons,
          tickBall_eq_fall hs hp, ih]
    | landed =>
      rw [tickBallsA_cons_keep rest s h hs, List.map_cons, tickBall_eq_keep hs, ih]

lemma landedCount_map_tickBall (δ : ℚ) (balls : List (Ball α)) :
    landedCount (balls.map (tickBall δ)) = landedCount balls + cntLands δ balls := by
  induction balls with
  | nil => rfl
  | cons b rest ih =>
    rw [List.map_cons, landedCount_cons, landedCount_cons]
    simp only [cntLands]
    rw [ih]
    cases hs : b.status with
    | falling =>
      have hns : ¬ b.status = BallStatus.landed := by rw [hs]; simp
      by_cases hp : 1 ≤ b.progress + δ
      · rw [tickBall_eq_land hs hp,
          if_pos (show ({ b with progress := 1, status := BallStatus.landed } :
              Ball α).status = .landed from rfl),
          if_neg (show ¬ BallStatus.falling = BallStatus.landed by simp),
          if_pos (show BallStatus.falling = BallStatus.falling ∧
            1 ≤ b.progress + δ from ⟨rfl, hp⟩)]
        omega
      · rw [tickBall_eq_fall hs hp,
          if_neg (show ¬ ({ b with progress := b.progress + δ } :
              Ball α).status = .landed from hns),
          if_neg (show ¬ BallStatus.falling = BallStatus.landed by simp),
          if_neg (fun hc => hp hc.2)]
        omega
    | landed =>
      rw [tickBall_eq_keep hs, if_pos hs,
        if_pos (show BallStatus.landed = BallStatus.landed from rfl),
        if_neg (show ¬ (BallStatus.landed = BallStatus.falling ∧
          1 ≤ b.progress + δ) by simp)]
      omega

lemma landedSqCount_map_tickBall (δ : ℚ) (balls : List (Ball α)) :
    landedSqCount (balls.map (tickBall δ)) =
      landedSqCount balls + cntLandsSq δ balls := by
  induction balls with
  | nil => rfl
  | cons b rest ih =>
    rw [List.map_cons, landedSqCount_cons, landedSqCount_cons]
    simp only [cntLandsSq]
    rw [ih]
    cases hs : b.status with
    | falling =>
      by_cases hp : 1 ≤ b.progress + δ
      · rw [tickBall_eq_land hs hp,
          if_neg (show ¬ (BallStatus.falling = BallStatus.landed ∧
            b.inSquare = true) by simp)]
        by_cases hsq : b.inSquare
        · rw [if_pos (show ({ b with progress := 1, status := BallStatus.landed } :
                Ball α).status = .landed ∧ b.inSquare = true from ⟨rfl, hsq⟩),
            if_pos (show (BallStatus.falling = BallStatus.falling ∧
              1 ≤ b.progress + δ) ∧ b.inSquare = true from ⟨⟨rfl, hp⟩, hsq⟩)]
          omega
        · rw [if_neg (fun hc => hsq hc.2), if_neg (fun hc => hsq hc.2)]
          omega
      · rw [tickBall_eq_fall hs hp,
          if_neg (show ¬ (({ b with progress := b.progress + δ } :
              Ball α).status = .landed ∧ b.inSquare = true) by
            intro hc
            have h1 : b.status = BallStatus.landed := hc.1
            rw [hs] at h1
            simp at h1),
          if_neg (show ¬ (BallStatus.falling = BallStatus.landed ∧
            b.inSquare = true) by simp),
          if_neg (fun hc => hp hc.1.2)]
        omega
    | landed =>
      have hkeep := tickBall_eq_keep (δ := δ) hs
      rw [hkeep]
      by_cases hsq : b.inSquare
      · rw [if_pos (show b.status = BallStatus.landed ∧
            b.inSquare = true from ⟨hs, hsq⟩)]
        rw [if_pos (show BallStatus.landed = BallStatus.landed ∧
            b.inSquare = true from ⟨rfl, hsq⟩),
          if_neg (show ¬ ((BallStatus.landed = BallStatus.falling ∧
            1 ≤ b.progress + δ) ∧ b.inSquare = true) by simp)]
        omega
      · rw [if_neg (fun hc => hsq hc.2), if_neg (fun hc => hsq hc.2),
          if_neg (fun hc => hsq hc.2)]
        omega

lemma cntLandsSq_le (δ : ℚ) (balls : List (Ball α)) :
    cntLandsSq δ balls ≤ cntLands δ balls := by
  induction balls with
  | nil => exact le_refl 0
  | cons b rest ih =>
    simp only [cntLands, cntLandsSq]
    by_cases hc : b.status = .falling ∧ 1 ≤ b.progress + δ
    · rw [if_pos hc]
      by_cases hsq : b.inSquare
      · rw [if_pos ⟨hc, hsq⟩]; omega
      · rw [if_neg (fun hcc => hsq hcc.2)]; omega
    · rw [if_neg hc, if_neg (fun hcc => hc hcc.1)]; omega

lemma tickBallsA_total (balls : List (Ball α)) :
    ∀ (s : SimulationStats) (h : List HistoryPoint),
      (tickBallsA balls s h).2.1.totalInCircle =
        s.totalInCircle + cntLands (1/20) balls := by
  induction balls with
  | nil => intro s h; simp [tickBallsA, cntLands]
  | cons b rest ih =>
    intro s h
    cases hs : b.status with
    | falling =>
      by_cases hp : 1 ≤ b.progress + (1/20 : ℚ)
      · rw [tickBallsA_cons_land rest s h hs hp]
        have := ih (updateStats b s h).1 (updateStats b s h).2
        rw [show (({ b with progress := 1, status := BallStatus.landed } ::
              (tickBallsA rest (updateStats b s h).1 (updateStats b s h).2).1,
            (tickBallsA rest (updateStats b s h).1 (updateStats b s h).2).2)).2.1
            = (tickBallsA rest (updateStats b s h).1 (updateStats b s h).2).2.1
            from rfl, this,
          show (updateStats b s h).1.totalInCircle = s.totalInCircle + 1 from rfl]
        simp only [cntLands]
        rw [if_pos ⟨hs, hp⟩]
        omega
      · rw [tickBallsA_cons_fall rest s h hs hp]
        have := ih s h
        rw [show (({ b with progress := b.progress + 1/20 } ::
              (tickBallsA rest s h).1, (tickBallsA rest s h).2)).2.1
            = (tickBallsA rest s h).2.1 from rfl, this]
        simp only [cntLands]
        rw [if_neg (fun hc => hp hc.2)]
        omega
    | landed =>
      rw [tickBallsA_cons_keep rest s h hs]
      have := ih s h
      rw [show ((b :: (tickBallsA rest s h).1, (tickBallsA rest s h).2)).2.1
          = (tickBallsA rest s h).2.1 from rfl, this]
      simp only [cntLands]
      rw [if_neg (show ¬ (b.status = BallStatus.falling ∧
          1 ≤ b.progress + 1/20) by rw [hs]; simp)]
      omega

lemma tickBallsA_sq (balls : List (Ball α)) :
    ∀ (s : SimulationStats) (h : List HistoryPoint),
      (tickBallsA balls s h).2.1.totalInSquare =
        s.totalInSquare + cntLandsSq (1/20) balls := by
  induction balls with
  | nil => intro s h; simp [tickBallsA, cntLandsSq]
  | cons b rest ih =>
    intro s h
    cases hs : b.status with
    | falling =>
      by_cases hp : 1 ≤ b.progress + (1/20 : ℚ)
      · rw [tickBallsA_cons_land rest s h hs hp]
        have := ih (updateStats b s h).1 (updateStats b s h).2
        rw [show (({ b with progress := 1, status := BallStatus.landed } ::
              (tickBallsA rest (updateStats b s h).1 (updateStats b s h).2).1,
            (tickBallsA rest (updateStats b s h).1 (updateStats b s h).2).2)).2.1
            = (tickBallsA rest (updateStats b s h).1 (updateStats b s h).2).2.1
            from rfl, this,
          show (updateStats b s h).1.totalInSquare =
            s.totalInSquare + (if b.inSquare then 1 else 0) from rfl]
        simp only [cntLandsSq]
        by_cases hsq : b.inSquare
        · rw [if_pos hsq, if_pos ⟨⟨hs, hp⟩, hsq⟩]; omega
        · rw [if_neg hsq, if_neg (fun hc => hsq hc.2)]; omega
      · rw [tickBallsA_cons_fall rest s h hs hp]
        have := ih s h
        rw [show (({ b with progress := b.progress + 1/20 } ::
              (tickBallsA rest s h).1, (tickBallsA rest s h).2)).2.1
            = (tickBallsA rest s h).2.1 from rfl, this]
        simp only [cntLandsSq]
        rw [if_neg (fun hc => hp hc.1.2)]
        omega
    | landed =>
      rw [tickBallsA_cons_keep rest s h hs]
      have := ih s h
      rw [show ((b :: (tickBallsA rest s h).1, (tickBallsA rest s h).2)).2.1
          = (tickBallsA rest s h).2.1 from rfl, this]
      simp only [cntLandsSq]
      rw [if_neg (show ¬ ((b.status = BallStatus.falling ∧
          1 ≤ b.progress + 1/20) ∧ b.inSquare = true) by rw [hs]; simp)]
      omega

/-! ## History preservation lemmas -/

lemma histOK_mono {t t' : ℕ} (h : List HistoryPoint) (ht : t ≤ t')
    (hh : histOK t h) : histOK t' h :=
  ⟨hh.1, fun p hp => le_trans (hh.2 p hp) ht⟩

lemma histOK_updateStats (b : Ball α) (s : SimulationStats)
    (h : List HistoryPoint) (hh : histOK s.totalInCircle h) :
    histOK (updateStats b s h).1.totalInCircle (updateStats b s h).2 := by
  obtain ⟨hpw, hbd⟩ := hh
  have ht : (updateStats b s h).1.totalInCircle = s.totalInCircle + 1 := rfl
  rw [histOK, ht]
  by_cases hc : (s.totalInCircle + 1) % 10 = 0
  · have h2 : (updateStats b s h).2 =
        h ++ [{ index := s.totalInCircle + 1,
                value := (updateStats b s h).1.estimatedPi }] := by
      simp [updateStats, hc]
    rw [h2]
    constructor
    · rw [List.map_append, List.pairwise_append]
      refine ⟨hpw, List.pairwise_singleton _ _, ?_⟩
      intro a ha c hc'
      simp only [List.map_cons, List.map_nil, List.mem_singleton] at hc'
      obtain ⟨p, hpmem, rfl⟩ := List.mem_map.mp ha
      rw [hc']
      exact Nat.lt_succ_of_le (hbd p hpmem)
    · intro p hpmem
      rcases List.mem_append.mp hpmem with h' | h'
      · exact Nat.le_succ_of_le (hbd p h')
      · rw [List.mem_singleton.mp h']
  · have h2 : (updateStats b s h).2 = h := by simp [updateStats, hc]
    rw [h2]
    exact ⟨hpw, fun p hp => Nat.le_succ_of_le (hbd p hp)⟩

lemma histOK_tickBallsA (balls : List (Ball α)) :
    ∀ (s : SimulationStats) (h : List HistoryPoint), histOK s.totalInCircle h →
      histOK (tickBallsA balls s h).2.1.totalInCircle (tickBallsA balls s h).2.2 := by
  induction balls with
  | nil => intro s h hh; exact hh
  | cons b rest ih =>
    intro s h hh
    cases hs : b.status with
    | falling =>
      by_cases hp : 1 ≤ b.progress + (1/20 : ℚ)
      · rw [tickBallsA_cons_land rest s h hs hp]
        exact ih (updateStats b s h).1 (updateStats b s h).2
          (histOK_updateStats b s h hh)
      · rw [tickBallsA_cons_fall rest s h hs hp]
        exact ih s h hh
    | landed =>
      rw [tickBallsA_cons_keep rest s h hs]
      exact ih s h hh

/-! ## Reachable-state invariants, version A -/

lemma reachA_counts {st : StateA α} (h : ReachableA st) :
    st.stats.totalInCircle = landedCount st.balls ∧
    st.stats.totalInSquare = landedSqCount st.balls := by
  induction h with
  | init => exact ⟨rfl, rfl⟩
  | drop st count gen hgen _ ih =>
    obtain ⟨ih1, ih2⟩ := ih
    constructor
    · show st.stats.totalInCircle = landedCount (st.balls ++ dropBalls count gen)
      rw [landedCount_append, landedCount_of_fresh (dropBalls_fresh hgen count), ih1]
      omega
    · show st.stats.totalInSquare = landedSqCount (st.balls ++ dropBalls count gen)
      rw [landedSqCount_append, landedSqCount_of_fresh (dropBalls_fresh hgen count), ih2]
      omega
  | tick st _ ih =>
    obtain ⟨ih1, ih2⟩ := ih
    by_cases he : st.balls.isEmpty
    · simp only [tickA]
      rw [if_pos he]
      exact ⟨ih1, ih2⟩
    · simp only [tickA]
      rw [if_neg he]
      dsimp only
      rw [tickBallsA_total, tickBallsA_sq, tickBallsA_balls,
        landedCount_map_tickBall, landedSqCount_map_tickBall, ih1, ih2]
      exact ⟨rfl, rfl⟩
  | reset st _ ih => exact ⟨rfl, rfl⟩

lemma reachA_hist {st : StateA α} (h : ReachableA st) :
    histOK st.stats.totalInCircle st.history := by
  induction h with
  | init =>
    exact ⟨List.Pairwise.nil, fun p hp => absurd hp (List.not_mem_nil p)⟩
  | drop st count gen hgen _ ih => exact ih
  | tick st _ ih =>
    by_cases he : st.balls.isEmpty
    · simp only [tickA]
      rw [if_pos he]
      exact ih
    · simp only [tickA]
      rw [if_neg he]
      dsimp only
      exact histOK_tickBallsA st.balls st.stats st.history ih
  | reset st _ ih =>
    exact ⟨List.Pairwise.nil, fun p hp => absurd hp (List.not_mem_nil p)⟩

lemma reachA_balls {st : StateA α} (h : ReachableA st) :
    ∀ b ∈ st.balls, ballOK b := by
  induction h with
  | init => intro b hb; exact absurd hb (List.not_mem_nil b)
  | drop st count gen hgen _ ih =>
    intro b hb
    rcases List.mem_append.mp hb with h' | h'
    · exact ih b h'
    · exact ballOK_of_fresh (dropBalls_fresh hgen count b h')
  | tick st _ ih =>
    by_cases he : st.balls.isEmpty
    · simp only [tickA]
      rw [if_pos he]
      exact ih
    · simp only [tickA]
      rw [if_neg he]
      intro b hb
      dsimp only at hb
      rw [tickBallsA_balls] at hb
      obtain ⟨c, hc, rfl⟩ := List.mem_map.mp hb
      exact ballOK_tickBall (by norm_num) (ih c hc)
  | reset st _ ih => intro b hb; exact absurd hb (List.not_mem_nil b)

/-! ## Reachable-state invariants, version B -/

lemma statsEffectB_noop {st : StateB α}
    (hle : landedCount st.balls ≤ st.stats.totalInCircle) :
    statsEffectB st = st := by
  simp only [statsEffectB]
  rw [if_neg (show ¬ st.stats.totalInCircle < (landedBalls st.balls).length from
    not_lt.mpr hle)]

lemma statsEffectB_fire {st : StateB α}
    (hlt : st.stats.totalInCircle < landedCount st.balls) :
    (statsEffectB st).stats = recomputeStats (landedBalls st.balls) ∧
    (statsEffectB st).balls = st.balls ∧
    (statsEffectB st).history =
      (if landedCount st.balls % 10 = 0 ∨ landedCount st.balls = 1
       then pushHistoryB (landedCount st.balls)
         ((recomputeStats (landedBalls st.balls)).estimatedPi) st.history
       else st.history) := by
  simp only [statsEffectB]
  rw [if_pos (show st.stats.totalInCircle < (landedBalls st.balls).length from hlt)]
  exact ⟨rfl, rfl, rfl⟩

lemma statsEffectB_balls (st : StateB α) : (statsEffectB st).balls = st.balls := by
  by_cases hlt : st.stats.totalInCircle < landedCount st.balls
  · exact (statsEffectB_fire hlt).2.1
  · rw [statsEffectB_noop (not_lt.mp hlt)]

lemma reachB_counts {st : StateB α} (h : ReachableB st) :
    st.stats.totalInCircle = landedCount st.balls ∧
    st.stats.totalInSquare = landedSqCount st.balls := by
  induction h with
  | init => exact ⟨rfl, rfl⟩
  | drop st count gen hgen _ ih =>
    obtain ⟨ih1, ih2⟩ := ih
    have hb : (dropBallsB count gen st).balls = st.balls ++ dropBalls count gen := rfl
    have hlc : landedCount (dropBallsB count gen st).balls = landedCount st.balls := by
      rw [hb, landedCount_append, landedCount_of_fresh (dropBalls_fresh hgen count)]
      omega
    have hnoop : statsEffectB (dropBallsB count gen st) = dropBallsB count gen st :=
      statsEffectB_noop (by
        show landedCount (dropBallsB count gen st).balls ≤ st.stats.totalInCircle
        rw [hlc, ih1])
    rw [hnoop]
    constructor
    · show st.stats.totalInCircle = landedCount (dropBallsB count gen st).balls
      rw [hlc, ih1]
    · show st.stats.totalInSquare = landedSqCount (dropBallsB count gen st).balls
      rw [hb, landedSqCount_append,
        landedSqCount_of_fresh (dropBalls_fresh hgen count), ih2]
      omega
  | tick st _ ih =>
    obtain ⟨ih1, ih2⟩ := ih
    have hb : (tickB st).balls = st.balls.map (tickBall (2/25)) := rfl
    have hlc : landedCount (tickB st).balls =
        landedCount st.balls + cntLands (2/25) st.balls := by
      rw [hb, landedCount_map_tickBall]
    have hlsq : landedSqCount (tickB st).balls =
        landedSqCount st.balls + cntLandsSq (2/25) st.balls := by
      rw [hb, landedSqCount_map_tickBall]
    by_cases hc : cntLands (2/25) st.balls = 0
    · have hsq0 : cntLandsSq (2/25) st.balls = 0 :=
        Nat.le_zero.mp (hc ▸ cntLandsSq_le (2/25) st.balls)
      have hnoop : statsEffectB (tickB st) = tickB st :=
        statsEffectB_noop (by
          show landedCount (tickB st).balls ≤ st.stats.totalInCircle
          rw [hlc, hc, ih1]
          omega)
      rw [hnoop]
      refine ⟨?_, ?_⟩
      · show st.stats.totalInCircle = landedCount (tickB st).balls
        rw [hlc, hc, ih1]
        omega
      · show st.stats.totalInSquare = landedSqCount (tickB st).balls
        rw [hlsq, hsq0, ih2]
        omega
    · have hguard : (tickB st).stats.totalInCircle < landedCount (tickB st).balls := by
        show st.stats.totalInCircle < landedCount (tickB st).balls
        rw [hlc, ih1]
        omega
      obtain ⟨hstats, hballs, _⟩ := statsEffectB_fire hguard
      rw [hstats, hballs]
      exact ⟨rfl, rfl⟩
  | reset st _ ih =>
    have hnoop : statsEffectB (resetB st) = resetB st :=
      statsEffectB_noop (Nat.le_refl 0)
    rw [hnoop]
    exact ⟨rfl, rfl⟩

lemma statsEffectB_hist {st : StateB α}
    (hh : histOK st.stats.totalInCircle st.history)
    (hlen : st.history.length ≤ 100) :
    histOK (statsEffectB st).stats.totalInCircle (statsEffectB st).history ∧
      (statsEffectB st).history.length ≤ 100 := by
  by_cases hlt : st.stats.totalInCircle < landedCount st.balls
  · obtain ⟨hstats, _, hhist⟩ := statsEffectB_fire hlt
    rw [hstats, hhist]
    have htot : (recomputeStats (landedBalls st.balls)).totalInCircle =
        landedCount st.balls := rfl
    rw [htot]
    by_cases hcad : landedCount st.balls % 10 = 0 ∨ landedCount st.balls = 1
    · rw [if_pos hcad]
      simp only [pushHistoryB]
      by_cases hdup : st.history.getLast?.map HistoryPoint.index =
          some (landedCount st.balls)
      · rw [if_pos hdup]
        exact ⟨histOK_mono st.history (le_of_lt hlt) hh, hlen⟩
      · rw [if_neg hdup]
        have happ : histOK (landedCount st.balls)
            (st.history ++
              [⟨landedCount st.balls,
                (recomputeStats (landedBalls st.balls)).estimatedPi⟩]) := by
          constructor
          · rw [List.map_append, List.pairwise_append]
            refine ⟨hh.1, List.pairwise_singleton _ _, ?_⟩
            intro a ha c hc
            simp only [List.map_cons, List.map_nil, List.mem_singleton] at hc
            obtain ⟨p, hpmem, rfl⟩ := List.mem_map.mp ha
            rw [hc]
            exact lt_of_le_of_lt (hh.2 p hpmem) hlt
          · intro p hpmem
            rcases List.mem_append.mp hpmem with h' | h'
            · exact le_of_lt (lt_of_le_of_lt (hh.2 p h') hlt)
            · rw [List.mem_singleton.mp h']
        refine ⟨⟨?_, ?_⟩, ?_⟩
        · show ((sliceLast 100 _).map HistoryPoint.index).Pairwise (· < ·)
          rw [sliceLast, List.map_drop]
          exact happ.1.sublist (List.drop_sublist _ _)
        · intro p hpmem
          exact happ.2 p (List.drop_subset _ _ hpmem)
        · show (sliceLast 100 _).length ≤ 100
          rw [sliceLast, List.length_drop]
          omega
    · rw [if_neg hcad]
      exact ⟨histOK_mono st.history (le_of_lt hlt) hh, hlen⟩
  · rw [statsEffectB_noop (not_lt.mp hlt)]
    exact ⟨hh, hlen⟩

lemma reachB_hist {st : StateB α} (h : ReachableB st) :
    histOK st.stats.totalInCircle st.history ∧ st.history.length ≤ 100 := by
  induction h with
  | init =>
    exact ⟨⟨List.Pairwise.nil, fun p hp => absurd hp (List.not_mem_nil p)⟩,
      Nat.zero_le 100⟩
  | drop st count gen hgen _ ih => exact statsEffectB_hist ih.1 ih.2
  | tick st _ ih => exact statsEffectB_hist ih.1 ih.2
  | reset st _ ih =>
    exact statsEffectB_hist
      ⟨List.Pairwise.nil, fun p hp => absurd hp (List.not_mem_nil p)⟩
      (Nat.zero_le 100)

lemma reachB_balls {st : StateB α} (h : ReachableB st) :
    ∀ b ∈ st.balls, ballOK b := by
  induction h with
  | init => intro b hb; exact absurd hb (List.not_mem_nil b)
  | drop st count gen hgen _ ih =>
    intro b hb
    rw [statsEffectB_balls] at hb
    rcases List.mem_append.mp hb with h' | h'
    · exact ih b h'
    · exact ballOK_of_fresh (dropBalls_fresh hgen count b h')
  | tick st _ ih =>
    intro b hb
    rw [statsEffectB_balls] at hb
    have hb' : b ∈ st.balls.map (tickBall (2/25)) := hb
    obtain ⟨c, hc, rfl⟩ := List.mem_map.mp hb'
    exact ballOK_tickBall (by norm_num) (ih c hc)
  | reset st _ ih =>
    intro b hb
    rw [statsEffectB_balls] at hb
    exact absurd hb (List.not_mem_nil b)

/-! ## A concrete version-A run: 1010 balls, 20 interval ticks -/

lemma ballAt_zero : ballAt 0 = cbBall := by
  simp [ballAt, cbBall]

lemma ballAt_progress (k : ℕ) : (ballAt k).progress = (k : ℚ) / 20 := rfl

lemma ballAt_no_land {k : ℕ} (hk : k < 19) :
    ¬ (1 : ℚ) ≤ (ballAt k).progress + 1/20 := by
  rw [ballAt_progress, not_le]
  have hq : ((k : ℚ)) / 20 + 1/20 = ((k + 1 : ℕ) : ℚ) / 20 := by
    push_cast
    ring
  rw [hq, div_lt_one (by norm_num : (0:ℚ) < 20)]
  exact_mod_cast (by omega : k + 1 < 20)

lemma tickBall_ballAt {k : ℕ} (hk : k < 19) :
    tickBall (1/20) (ballAt k) = ballAt (k + 1) := by
  rw [tickBall_eq_fall rfl (ballAt_no_land hk)]
  simp only [ballAt, cbBall, Ball.mk.injEq, and_true, true_and]
  push_cast
  ring

lemma isEmpty_replicate_succ (n : ℕ) (b : Ball α) :
    (List.replicate (n+1) b).isEmpty = false := by
  rw [List.replicate_succ]
  rfl

lemma any_falling_replicate (n : ℕ) (b : Ball α) (hb : b.status = .falling) :
    (List.replicate (n+1) b).any (fun x => decide (x.status = .falling)) = true := by
  rw [List.replicate_succ, List.any_cons]
  simp [hb]

lemma tickBallsA_no_land (balls : List (Ball α)) :
    ∀ (s : SimulationStats) (h : List HistoryPoint),
      (∀ b ∈ balls, b.status = .falling → ¬ 1 ≤ b.progress + 1/20) →
      (tickBallsA balls s h).2 = (s, h) := by
  induction balls with
  | nil => intro s h _; rfl
  | cons b rest ih =>
    intro s h hcond
    cases hs : b.status with
    | falling =>
      have hp := hcond b (List.mem_cons_self b rest) hs
      rw [tickBallsA_cons_fall rest s h hs hp]
      exact ih s h (fun c hc hcf => hcond c (List.mem_cons_of_mem b hc) hcf)
    | landed =>
      rw [tickBallsA_cons_keep rest s h hs]
      exact ih s h (fun c hc hcf => hcond c (List.mem_cons_of_mem b hc) hcf)

lemma updateStats_hist_length (b : Ball α) (s : SimulationStats)
    (h : List HistoryPoint) :
    (updateStats b s h).2.length =
      h.length + (if (s.totalInCircle + 1) % 10 = 0 then 1 else 0) := by
  by_cases hc : (s.totalInCircle + 1) % 10 = 0
  · have h2 : (updateStats b s h).2 =
        h ++ [⟨s.totalInCircle + 1, (updateStats b s h).1.estimatedPi⟩] := by
      simp [updateStats, hc]
    rw [h2, List.length_append, if_pos hc]
    rfl
  · have h2 : (updateStats b s h).2 = h := by simp [updateStats, hc]
    rw [h2, if_neg hc]
    omega

lemma tickBallsA_replicate_land_histlen (b : Ball α) (hs : b.status = .falling)
    (hp : 1 ≤ b.progress + 1/20) :
    ∀ (n : ℕ) (s : SimulationStats) (h : List HistoryPoint),
      (tickBallsA (List.replicate n b) s h).2.2.length =
        h.length + ((s.totalInCircle + n) / 10 - s.totalInCircle / 10) := by
  intro n
  induction n with
  | zero =>
    intro s h
    simp [tickBallsA, List.replicate]
  | succ n ih =>
    intro s h
    rw [List.replicate_succ, tickBallsA_cons_land _ s h hs hp]
    show (tickBallsA (List.replicate n b) (updateStats b s h).1
        (updateStats b s h).2).2.2.length = _
    rw [ih (updateStats b s h).1 (updateStats b s h).2, updateStats_hist_length,
      show (updateStats b s h).1.totalInCircle = s.totalInCircle + 1 from rfl]
    by_cases hc : (s.totalInCircle + 1) % 10 = 0
    · rw [if_pos hc]; omega
    · rw [if_neg hc]; omega

lemma cb_after_ticks :
    ∀ k : ℕ, k ≤ 19 →
      tickA^[k] (dropBallsA 1010 (fun _ => cbBall) initialStateA) =
        { balls := List.replicate 1010 (ballAt k)
          stats := initialStats
          history := []
          isSimulationRunning := true } := by
  intro k
  induction k with
  | zero =>
    intro _
    rw [Function.iterate_zero_apply, ballAt_zero]
    have hballs : dropBalls (1010 : ℤ) (fun _ => cbBall) =
        List.replicate 1010 cbBall := by
      simp [dropBalls]
    show ({ initialStateA with
        balls := (initialStateA (α := Unit)).balls ++ dropBalls 1010 (fun _ => cbBall)
        isSimulationRunning := true } : StateA Unit) = _
    rw [hballs]
    rfl
  | succ k ih =>
    intro hk
    have hk18 : k < 19 := by omega
    rw [Function.iterate_succ_apply', ih (by omega)]
    simp only [tickA]
    rw [if_neg (show ¬ (List.replicate 1010 (ballAt k)).isEmpty = true by
      rw [show (1010:ℕ) = 1009 + 1 from rfl, isEmpty_replicate_succ]
      exact Bool.false_ne_true)]
    have hnl := tickBallsA_no_land (List.replicate 1010 (ballAt k)) initialStats []
      (fun c hc _ => by rw [List.eq_of_mem_replicate hc]; exact ballAt_no_land hk18)
    have h1 : (tickBallsA (List.replicate 1010 (ballAt k)) initialStats []).2.1 =
        initialStats := by rw [hnl]
    have h2 : (tickBallsA (List.replicate 1010 (ballAt k)) initialStats []).2.2 =
        ([] : List HistoryPoint) := by rw [hnl]
    rw [tickBallsA_balls, List.map_replicate, tickBall_ballAt hk18, h1, h2,
      show (1010:ℕ) = 1009 + 1 from rfl,
      any_falling_replicate 1009 (ballAt k) rfl]
    rfl

lemma cbState_history_length : cbState.history.length = 101 := by
  rw [cbState, show (20:ℕ) = 19 + 1 from rfl, Function.iterate_succ_apply',
    cb_after_ticks 19 (le_refl 19)]
  simp only [tickA]
  rw [if_neg (show ¬ (List.replicate 1010 (ballAt 19)).isEmpty = true by
    rw [show (1010:ℕ) = 1009 + 1 from rfl, isEmpty_replicate_succ]
    exact Bool.false_ne_true)]
  show (tickBallsA (List.replicate 1010 (ballAt 19)) initialStats []).2.2.length = 101
  rw [tickBallsA_replicate_land_histlen (ballAt 19) rfl
    (by rw [ballAt_progress]; norm_num) 1010 initialStats [],
    show initialStats.totalInCircle = 0 from rfl]
  norm_num

lemma reachableA_iterate_tick (m : ℕ) (st : StateA α) (hst : ReachableA st) :
    ReachableA (tickA^[m] st) := by
  induction m with
  | zero => simpa using hst
  | succ m ih => rw [Function.iterate_succ_apply']; exact ReachableA.tick _ ih

lemma reachable_cbState : ReachableA cbState :=
  reachableA_iterate_tick 20 _
    (ReachableA.drop _ 1010 (fun _ => cbBall) (fun _ => ⟨rfl, rfl⟩) ReachableA.init)

/-! ## Refinement: incremental vs recompute statistics -/

lemma foldStats_append_single (ls : List (Ball α)) (b : Ball α) :
    foldStats (ls ++ [b]) = (updateStats b (foldStats ls) []).1 := by
  simp [foldStats, List.foldl_append]

lemma updateStats_recompute (l : List (Ball α)) (b : Ball α) (s : SimulationStats)
    (hs1 : s.totalInCircle = l.length)
    (hs2 : s.totalInSquare = (l.filter fun x => x.inSquare).length) :
    (updateStats b s []).1 = recomputeStats (l ++ [b]) := by
  simp only [updateStats, recomputeStats]
  rw [hs1, hs2]
  by_cases hsq : b.inSquare <;>
    simp [List.filter_append, List.filter_cons, hsq, SimulationStats.mk.injEq,
      Nat.add_comm]

lemma foldStats_eq_recompute (ls : List (Ball α)) (hne : ls ≠ []) :
    foldStats ls = recomputeStats ls := by
  induction ls using List.reverseRecOn with
  | nil => exact absurd rfl hne
  | append_singleton l b ih =>
    rw [foldStats_append_single]
    rcases eq_or_ne l [] with rfl | hl
    · exact updateStats_recompute [] b initialStats rfl rfl
    · rw [ih hl]
      exact updateStats_recompute l b (recomputeStats l) rfl rfl

/-! ## Claim theorems -/

/-- C1: For every statistics update — `updateStats` in the incremental
version and the recomputed statistics of the recompute version — the π
estimate equals `2 × totalInCircle / totalInSquare` whenever
`totalInSquare > 0`, and equals `0` (a defined, displayable value, not an
exception) whenever `totalInSquare = 0`. -/
theorem C1_estimate_defined_on_zero_square :
    (∀ (α : Type) (b : Ball α) (s : SimulationStats) (h : List HistoryPoint),
      (0 < (updateStats b s h).1.totalInSquare →
        (updateStats b s h).1.estimatedPi =
          2 * ((updateStats b s h).1.totalInCircle : ℚ) /
            ((updateStats b s h).1.totalInSquare : ℚ)) ∧
      ((updateStats b s h).1.totalInSquare = 0 →
        (updateStats b s h).1.estimatedPi = 0)) ∧
    (∀ (α : Type) (landed : List (Ball α)),
      (0 < (recomputeStats landed).totalInSquare →
        (recomputeStats landed).estimatedPi =
          2 * ((recomputeStats landed).totalInCircle : ℚ) /
            ((recomputeStats landed).totalInSquare : ℚ)) ∧
      ((recomputeStats landed).totalInSquare = 0 →
        (recomputeStats landed).estimatedPi = 0)) := by
  constructor
  · intro α b s h
    constructor
    · intro hpos
      simp only [updateStats] at hpos ⊢
      rw [if_pos hpos]
    · intro hzero
      simp only [updateStats] at hzero ⊢
      rw [if_neg (by omega)]
  · intro α landed
    constructor
    · intro hpos
      simp only [recomputeStats] at hpos ⊢
      rw [if_pos hpos]
    · intro hzero
      simp only [recomputeStats] at hzero ⊢
      rw [if_neg (by omega)]

/-- Witness for C1: one in-square landing from the zero statistics gives the
positive-denominator formula; one out-of-square landing keeps the
zero-denominator estimate at 0. -/
theorem C1_witness :
    (updateStats cbBall initialStats []).1.estimatedPi =
      2 * ((updateStats cbBall initialStats []).1.totalInCircle : ℚ) /
        ((updateStats cbBall initialStats []).1.totalInSquare : ℚ) ∧
    (updateStats { cbBall with inSquare := false } initialStats []).1.estimatedPi = 0 :=
  ⟨(C1_estimate_defined_on_zero_square.1 Unit cbBall initialStats []).1 (by decide),
   (C1_estimate_defined_on_zero_square.1 Unit { cbBall with inSquare := false }
      initialStats []).2 (by decide)⟩

/-- C2: In every reachable state of either version, the aggregate
statistics satisfy totalInSquare ≤ totalInCircle, where totalInCircle is
the number of landed samples and totalInSquare the number of landed samples
with membership. -/
theorem C2_square_le_circle :
    (∀ (α : Type) (st : StateA α), ReachableA st →
      st.stats.totalInSquare ≤ st.stats.totalInCircle ∧
      st.stats.totalInCircle = landedCount st.balls ∧
      st.stats.totalInSquare = landedSqCount st.balls) ∧
    (∀ (α : Type) (st : StateB α), ReachableB st →
      st.stats.totalInSquare ≤ st.stats.totalInCircle ∧
      st.stats.totalInCircle = landedCount st.balls ∧
      st.stats.totalInSquare = landedSqCount st.balls) := by
  constructor
  · intro α st h
    obtain ⟨h1, h2⟩ := reachA_counts h
    exact ⟨by rw [h1, h2]; exact landedSqCount_le st.balls, h1, h2⟩
  · intro α st h
    obtain ⟨h1, h2⟩ := reachB_counts h
    exact ⟨by rw [h1, h2]; exact landedSqCount_le st.balls, h1, h2⟩

/-- Witness for C2 at the initial states. -/
theorem C2_witness :
    (initialStateA (α := Unit)).stats.totalInSquare ≤
      (initialStateA (α := Unit)).stats.totalInCircle ∧
    (initialStateB (α := Unit)).stats.totalInSquare ≤
      (initialStateB (α := Unit)).stats.totalInCircle :=
  ⟨(C2_square_le_circle.1 Unit _ ReachableA.init).1,
   (C2_square_le_circle.2 Unit _ ReachableB.init).1⟩

/-- C3 (counterexample): in the incremental version the history has no
length bound: dropping 1010 balls and letting all of them land produces a
reachable state whose history holds 101 points, exceeding 100. -/
theorem C3_counterexample :
    ReachableA cbState ∧ 100 < cbState.history.length :=
  ⟨reachable_cbState, by rw [cbState_history_length]; norm_num⟩

/-- C3 (amended): in every reachable state of either version the history
indices are duplicate-free and non-decreasing; the 100-point bound with
oldest-first eviction holds in the recompute version (whose update only
appends at the tail and drops from the front), while the incremental
version's history is unbounded. -/
theorem C3_history_amended :
    (∀ (α : Type) (st : StateA α), ReachableA st →
      (st.history.map HistoryPoint.index).Nodup ∧
      (st.history.map HistoryPoint.index).Pairwise (· ≤ ·)) ∧
    (∀ (α : Type) (st : StateB α), ReachableB st →
      (st.history.map HistoryPoint.index).Nodup ∧
      (st.history.map HistoryPoint.index).Pairwise (· ≤ ·) ∧
      st.history.length ≤ 100) ∧
    (∀ (α : Type) (st : StateB α), ∃ ps : List HistoryPoint,
      ps.length ≤ 1 ∧ (statsEffectB st).history.IsSuffix (st.history ++ ps)) := by
  refine ⟨?_, ?_, ?_⟩
  · intro α st h
    have hp := (reachA_hist h).1
    exact ⟨hp.imp (fun hlt => Nat.ne_of_lt hlt), hp.imp (fun hlt => le_of_lt hlt)⟩
  · intro α st h
    obtain ⟨⟨hp, _⟩, hlen⟩ := reachB_hist h
    exact ⟨hp.imp (fun hlt => Nat.ne_of_lt hlt), hp.imp (fun hlt => le_of_lt hlt), hlen⟩
  · intro α st
    by_cases hlt : st.stats.totalInCircle < landedCount st.balls
    · obtain ⟨_, _, hhist⟩ := statsEffectB_fire hlt
      rw [hhist]
      by_cases hcad : landedCount st.balls % 10 = 0 ∨ landedCount st.balls = 1
      · rw [if_pos hcad]
        simp only [pushHistoryB]
        by_cases hdup : st.history.getLast?.map HistoryPoint.index =
            some (landedCount st.balls)
        · rw [if_pos hdup]
          exact ⟨[], by simp, by simp⟩
        · rw [if_neg hdup]
          refine ⟨[⟨landedCount st.balls,
            (recomputeStats (landedBalls st.balls)).estimatedPi⟩], by simp, ?_⟩
          rw [sliceLast]
          exact List.drop_suffix _ _
      · rw [if_neg hcad]
        exact ⟨[], by simp, by simp⟩
    · rw [statsEffectB_noop (not_lt.mp hlt)]
      exact ⟨[], by simp, by simp⟩

/-- Witness for C3 (amended) at the initial states. -/
theorem C3_amended_witness :
    ((initialStateA (α := Unit)).history.map HistoryPoint.index).Nodup ∧
    (initialStateB (α := Unit)).history.length ≤ 100 :=
  ⟨(C3_history_amended.1 Unit _ ReachableA.init).1,
   (C3_history_amended.2.1 Unit _ ReachableB.init).2.2⟩

/-- C4: for every radius R > 0 and every draw (radial fraction u ∈ [0,1),
angle θ), the generated landing point lies within distance R of the
circle's center. -/
theorem C4_sampler_within_radius (radius cX cY u θ : ℝ) (id : String)
    (hR : 0 < radius) (hu0 : 0 ≤ u) (hu1 : u < 1) :
    Real.sqrt (((generateBall radius cX cY u θ id).targetX - cX) ^ 2 +
      ((generateBall radius cX cY u θ id).targetY - cY) ^ 2) ≤ radius := by
  have hX : (generateBall radius cX cY u θ id).targetX =
      cX + radius * Real.sqrt u * Real.cos θ := rfl
  have hY : (generateBall radius cX cY u θ id).targetY =
      cY + radius * Real.sqrt u * Real.sin θ := rfl
  rw [hX, hY,
    show cX + radius * Real.sqrt u * Real.cos θ - cX =
      radius * Real.sqrt u * Real.cos θ from by ring,
    show cY + radius * Real.sqrt u * Real.sin θ - cY =
      radius * Real.sqrt u * Real.sin θ from by ring]
  have hr0 : 0 ≤ radius * Real.sqrt u := mul_nonneg hR.le (Real.sqrt_nonneg u)
  have hsum : (radius * Real.sqrt u * Real.cos θ) ^ 2 +
      (radius * Real.sqrt u * Real.sin θ) ^ 2 = (radius * Real.sqrt u) ^ 2 := by
    have hpy : Real.cos θ ^ 2 + Real.sin θ ^ 2 = 1 := Real.cos_sq_add_sin_sq θ
    calc (radius * Real.sqrt u * Real.cos θ) ^ 2 +
        (radius * Real.sqrt u * Real.sin θ) ^ 2
        = (radius * Real.sqrt u) ^ 2 * (Real.cos θ ^ 2 + Real.sin θ ^ 2) := by ring
      _ = (radius * Real.sqrt u) ^ 2 := by rw [hpy, mul_one]
  rw [hsum, Real.sqrt_sq hr0]
  calc radius * Real.sqrt u ≤ radius * 1 :=
        mul_le_mul_of_nonneg_left (Real.sqrt_le_one.mpr hu1.le) hR.le
    _ = radius := mul_one radius

/-- Witness for C4 at R = 1, u = 0, θ = 0. -/
theorem C4_witness :
    Real.sqrt (((generateBall 1 0 0 0 0 "").targetX - 0) ^ 2 +
      ((generateBall 1 0 0 0 0 "").targetY - 0) ^ 2) ≤ 1 :=
  C4_sampler_within_radius 1 0 0 0 0 "" (by norm_num) (by norm_num) (by norm_num)

/-- C5: the membership flag of a generated sample is true if and only if
both landing coordinates lie within half the inscribed square's side
(R√2/2) of the center on each axis; a sample landing exactly at the center
(u = 0) has membership, and a single such landed sample from the zero
statistics yields totalInCircle = totalInSquare = 1 and estimatedPi = 2. -/
theorem C5_membership_test :
    (∀ (radius cX cY u θ : ℝ) (id : String),
      ((generateBall radius cX cY u θ id).inSquare = true ↔
        |(generateBall radius cX cY u θ id).targetX - cX| ≤
            radius * Real.sqrt 2 / 2 ∧
        |(generateBall radius cX cY u θ id).targetY - cY| ≤
            radius * Real.sqrt 2 / 2)) ∧
    (∀ (radius cX cY θ : ℝ) (id : String), 0 < radius →
      (generateBall radius cX cY 0 θ id).inSquare = true) ∧
    (∀ (α : Type) (b : Ball α), b.inSquare = true →
      (updateStats b initialStats []).1.totalInCircle = 1 ∧
      (updateStats b initialStats []).1.totalInSquare = 1 ∧
      (updateStats b initialStats []).1.estimatedPi = 2) := by
  refine ⟨generateBall_inSquare_iff, ?_, ?_⟩
  · intro radius cX cY θ id hR
    rw [generateBall_inSquare_iff]
    have hX : (generateBall radius cX cY 0 θ id).targetX =
        cX + radius * Real.sqrt 0 * Real.cos θ := rfl
    have hY : (generateBall radius cX cY 0 θ id).targetY =
        cY + radius * Real.sqrt 0 * Real.sin θ := rfl
    rw [hX, hY, Real.sqrt_zero]
    constructor
    · rw [show cX + radius * 0 * Real.cos θ - cX = 0 from by ring, abs_zero]
      positivity
    · rw [show cY + radius * 0 * Real.sin θ - cY = 0 from by ring, abs_zero]
      positivity
  · intro α b hb
    refine ⟨rfl, ?_, ?_⟩
    · show 0 + (if b.inSquare then 1 else 0) = 1
      simp [hb]
    · simp only [updateStats, hb]
      rw [show initialStats.totalInCircle = 0 from rfl,
        show initialStats.totalInSquare = 0 from rfl]
      norm_num

/-- Witness for C5: the center landing with R = 1 and the single-sample
statistics at a concrete in-square ball. -/
theorem C5_witness :
    (generateBall 1 0 0 0 0 "").inSquare = true ∧
    (updateStats cbBall initialStats []).1.estimatedPi = 2 :=
  ⟨C5_membership_test.2.1 1 0 0 0 "" (by norm_num),
   (C5_membership_test.2.2 Unit cbBall rfl).2.2⟩

/-- C6: from any state, the reset action of either version restores the
exact zero state (empty samples, zero statistics, empty history) in one
action. -/
theorem C6_reset_zero_state :
    ∀ (α : Type) (stA : StateA α) (stB : StateB α),
      (resetA stA).balls = [] ∧ (resetA stA).stats = initialStats ∧
      (resetA stA).history = [] ∧
      statsEffectB (resetB stB) = initialStateB := by
  intro α stA stB
  exact ⟨rfl, rfl, rfl, statsEffectB_noop (Nat.le_refl 0)⟩

/-- C7: the drop action appends exactly `count.toNat` freshly generated
samples (each falling with progress 0) at the end of the collection,
leaves the statistics and history unchanged at that moment, and a
non-positive count is a no-op. -/
theorem C7_drop_semantics :
    (∀ (α : Type) (count : ℤ) (gen : ℕ → Ball α) (st : StateA α),
      (dropBallsA count gen st).balls = st.balls ++ dropBalls count gen ∧
      (dropBalls count gen : List (Ball α)).length = count.toNat ∧
      (dropBallsA count gen st).stats = st.stats ∧
      (dropBallsA count gen st).history = st.history ∧
      (count ≤ 0 → (dropBallsA count gen st).balls = st.balls)) ∧
    (∀ (α : Type) (gen : ℕ → Ball α), (∀ n, fresh (gen n)) →
      ∀ (count : ℤ) (b : Ball α), b ∈ dropBalls count gen →
        b.status = .falling ∧ b.progress = 0) ∧
    (∀ (radius cX cY u θ : ℝ) (id : String),
      fresh (generateBall radius cX cY u θ id)) ∧
    (∀ (α : Type) (count : ℤ) (gen : ℕ → Ball α) (st : StateB α),
      ReachableB st → (∀ n, fresh (gen n)) →
      statsEffectB (dropBallsB count gen st) =
        { st with balls := st.balls ++ dropBalls count gen }) := by
  refine ⟨?_, ?_, ?_, ?_⟩
  · intro α count gen st
    refine ⟨rfl, by simp [dropBalls], rfl, rfl, ?_⟩
    intro hc
    show st.balls ++ dropBalls count gen = st.balls
    rw [dropBalls, Int.toNat_of_nonpos hc]
    simp
  · intro α gen hgen count b hb
    exact dropBalls_fresh hgen count b hb
  · intro radius cX cY u θ id
    exact generateBall_fresh radius cX cY u θ id
  · intro α count gen st hreach hgen
    obtain ⟨ih1, _⟩ := reachB_counts hreach
    have hlc : landedCount (dropBallsB count gen st).balls = landedCount st.balls := by
      rw [show (dropBallsB count gen st).balls = st.balls ++ dropBalls count gen
          from rfl,
        landedCount_append, landedCount_of_fresh (dropBalls_fresh hgen count)]
      omega
    exact statsEffectB_noop (by
      show landedCount (dropBallsB count gen st).balls ≤ st.stats.totalInCircle
      rw [hlc, ih1])

/-- Witness for C7: a concrete no-op drop with count −5, and a concrete
version-B drop of 2 fresh balls from the initial state. -/
theorem C7_witness :
    (dropBallsA (-5) (fun _ => cbBall) initialStateA).balls =
      (initialStateA (α := Unit)).balls ∧
    statsEffectB (dropBallsB 2 (fun _ => cbBall) initialStateB) =
      { (initialStateB : StateB Unit) with
        balls := (initialStateB : StateB Unit).balls ++
          dropBalls 2 (fun _ => cbBall) } :=
  ⟨(C7_drop_semantics.1 Unit (-5) (fun _ => cbBall) initialStateA).2.2.2.2
      (by norm_num),
   C7_drop_semantics.2.2.2 Unit 2 (fun _ => cbBall) initialStateB ReachableB.init
      (fun _ => ⟨rfl, rfl⟩)⟩

/-- C8: a sample's progress is non-decreasing and clamped at 1 under
animation ticks, the falling→landed transition fires exactly on the tick
where the next progress reaches 1 (setting progress to exactly 1), a landed
sample is never modified (in particular never returns to falling), and in
every reachable state of either machine each sample has progress in [0,1]
with landed samples at exactly 1. -/
theorem C8_animation_state_machine :
    (∀ (α : Type) (δ : ℚ) (b : Ball α), 0 ≤ δ → b.progress ≤ 1 →
      b.progress ≤ (tickBall δ b).progress ∧ (tickBall δ b).progress ≤ 1) ∧
    (∀ (α : Type) (δ : ℚ) (b : Ball α), b.status = .landed → tickBall δ b = b) ∧
    (∀ (α : Type) (δ : ℚ) (b : Ball α), b.status = .falling →
      (((tickBall δ b).status = .landed ↔ 1 ≤ b.progress + δ) ∧
        (1 ≤ b.progress + δ →
          (tickBall δ b).progress = 1 ∧ (tickBall δ b).status = .landed))) ∧
    (∀ (α : Type) (δ : ℚ) (b : Ball α) (m : ℕ), b.status = .landed →
      (tickBall δ)^[m] b = b) ∧
    (∀ (α : Type) (st : StateA α), ReachableA st → ∀ b ∈ st.balls, ballOK b) ∧
    (∀ (α : Type) (st : StateB α), ReachableB st → ∀ b ∈ st.balls, ballOK b) := by
  refine ⟨?_, ?_, ?_, ?_, ?_, ?_⟩
  · intro α δ b hδ h1
    cases hs : b.status with
    | landed => rw [tickBall_eq_keep hs]; exact ⟨le_refl _, h1⟩
    | falling =>
      by_cases hp : 1 ≤ b.progress + δ
      · rw [tickBall_eq_land hs hp]
        exact ⟨h1, le_refl 1⟩
      · rw [tickBall_eq_fall hs hp]
        exact ⟨le_add_of_nonneg_right hδ, (not_le.mp hp).le⟩
  · intro α δ b hs
    exact tickBall_eq_keep hs
  · intro α δ b hs
    by_cases hp : 1 ≤ b.progress + δ
    · rw [tickBall_eq_land hs hp]
      exact ⟨⟨fun _ => hp, fun _ => rfl⟩, fun _ => ⟨rfl, rfl⟩⟩
    · rw [tickBall_eq_fall hs hp]
      refine ⟨⟨?_, fun hcon => absurd hcon hp⟩, fun hcon => absurd hcon hp⟩
      intro hcon
      have hcon' : b.status = BallStatus.landed := hcon
      rw [hs] at hcon'
      exact BallStatus.noConfusion hcon'
  · intro α δ b m hs
    exact tickBall_iterate_landed hs m
  · intro α st h
    exact reachA_balls h
  · intro α st h
    exact reachB_balls h

/-- Witness for C8 at the concrete increment 0.05 and a fresh ball. -/
theorem C8_witness :
    cbBall.progress ≤ (tickBall (1/20) cbBall).progress ∧
    tickBall (1/20) { cbBall with status := BallStatus.landed } =
      { cbBall with status := BallStatus.landed } ∧
    ((tickBall (1/20) cbBall).status = BallStatus.landed ↔
      1 ≤ cbBall.progress + 1/20) :=
  ⟨(C8_animation_state_machine.1 Unit (1/20) cbBall (by norm_num)
      (by rw [show cbBall.progress = 0 from rfl]; norm_num)).1,
   C8_animation_state_machine.2.1 Unit (1/20) _ rfl,
   (C8_animation_state_machine.2.2.1 Unit (1/20) cbBall rfl).1⟩

/-- C9: the incremental statistics update (one `updateStats` per landed
sample) and the recompute-from-the-landed-subset update produce identical
statistics — all four of totalInCircle, totalInSquare, estimatedPi and
error — when driven by the same non-empty sequence of landed-sample
transitions, and both show the zero statistics before any sample lands. -/
theorem C9_incremental_equals_recompute :
    (∀ (α : Type), foldStats ([] : List (Ball α)) = initialStats) ∧
    (∀ (α : Type) (ls : List (Ball α)), ls ≠ [] →
      foldStats ls = recomputeStats ls) :=
  ⟨fun _ => rfl, fun _ ls hne => foldStats_eq_recompute ls hne⟩

/-- Witness for C9 at a one-sample sequence. -/
theorem C9_witness : foldStats [cbBall] = recomputeStats [cbBall] :=
  C9_incremental_equals_recompute.2 Unit [cbBall] (by simp)

/-- C10 (counterexample): the claim fails as stated because the client is
constructed before the try block: in an environment where
`new GoogleGenAI(...)` throws (an absent credential in a browser), the
exception propagates out of `getPiInsight` instead of being replaced by the
fallback string. -/
theorem C10_counterexample :
    getPiInsight
        { newGoogleGenAI := Except.error "Missing API key"
          generateContent := fun _ => Except.ok "insight" }
        { total := 0, square := 0, estimate := 0, error := 0 } =
      Except.error "Missing API key" ∧
    ¬ ∃ s : String,
      getPiInsight
          { newGoogleGenAI := Except.error "Missing API key"
            generateContent := fun _ => Except.ok "insight" }
          { total := 0, square := 0, estimate := 0, error := 0 } =
        Except.ok s := by
  constructor
  · rfl
  · rintro ⟨s, hs⟩
    simp [getPiInsight] at hs

/-- C10 (amended): whenever the client construction step succeeds, the
commentary operation returns a string on every path — the response text on
success, the fixed fallback on any `generateContent` failure — and never
propagates an exception. -/
theorem C10_fallback_amended (env : GeminiEnv) (stats : InsightStats)
    (hok : env.newGoogleGenAI = Except.ok ()) :
    (∀ t, env.generateContent (piInsightPrompt stats) = Except.ok t →
      getPiInsight env stats = Except.ok t) ∧
    (∀ e, env.generateContent (piInsightPrompt stats) = Except.error e →
      getPiInsight env stats = Except.ok fallbackInsight) ∧
    ∃ s : String, getPiInsight env stats = Except.ok s := by
  refine ⟨?_, ?_, ?_⟩
  · intro t ht
    simp [getPiInsight, hok, ht]
  · intro e he
    simp [getPiInsight, hok, he]
  · cases hg : env.generateContent (piInsightPrompt stats) with
    | ok t => exact ⟨t, by simp [getPiInsight, hok, hg]⟩
    | error e => exact ⟨fallbackInsight, by simp [getPiInsight, hok, hg]⟩

/-- Witness for C10 (amended): a concrete network failure is replaced by
the fallback string. -/
theorem C10_witness :
    getPiInsight
        { newGoogleGenAI := Except.ok ()
          generateContent := fun _ => Except.error "network failure" }
        { total := 1, square := 1, estimate := 2, error := 0 } =
      Except.ok fallbackInsight :=
  (C10_fallback_amended
    { newGoogleGenAI := Except.ok ()
      generateContent := fun _ => Except.error "network failure" }
    { total := 1, square := 1, estimate := 2, error := 0 } rfl).2.1
    "network failure" rfl

end PiMC
